import Mathlib

/-!
Shallow embedding of `src/scrape.py` (wesm/arrow-activity), a sequential
fetch-paginate-normalize-aggregate pipeline against a rate-limited HTTP API.

Modelling conventions:
* A Python dict record is an association list `Row = List (String × String)`;
  `rowGet` models subscript/`get` access.
* Network responses are supplied by oracles: a page oracle
  `resp : Nat → Nat → Resp α` gives, for each page number and each retry
  attempt on that page, the HTTP status and decoded JSON list, and a profile
  oracle `net : String → ProfileResp` gives each username's profile response.
* Stateful code (the module-level display-name cache) is explicit state
  passing: functions take and return the cache, and additionally return the
  list of usernames for which a real network profile request was issued, so
  that memoization claims are statements about that call log.
* `time.sleep` is modelled by recording the requested duration; Python's
  `time.sleep` raises `ValueError` on a negative argument, which is modelled
  with `Except.error`.
* The unbounded `while True:` pagination loop is given explicit fuel; the
  theorems quantify over any sufficiently large fuel.
-/

namespace Scrape

/-- A Python dict record (string keys to string values), e.g. one event row. -/
abbrev Row := List (String × String)

/-- Subscript access `r[k]` on a record, as an `Option`. -/
def rowGet (r : Row) (k : String) : Option String :=
  (r.find? (fun kv => kv.1 == k)).map (fun kv => kv.2)

/-- The display-name cache `user_display_name_cache`: username to display name. -/
abbrev Cache := List (String × String)

/-- Lookup `username in user_display_name_cache` / `cache[username]`. -/
def cacheLookup (cache : Cache) (u : String) : Option String :=
  (cache.find? (fun kv => kv.1 == u)).map (fun kv => kv.2)

/-- Embedding of `check_rate_limit` (src/scrape.py lines 15-22), with the
rate-limit headers already parsed to integers and the current epoch `now`
passed explicitly.  The result carries the requested sleep duration (`none`
when no sleep happens) and the returned `remaining` value; a negative sleep
duration is the `ValueError` Python's `time.sleep` raises. -/
def check_rate_limit (remaining reset_time now : Int) :
    Except String (Option Int × Int) :=
  if remaining = 0 then
    let sleep_time := reset_time - now + 1
    if sleep_time < 0 then Except.error "sleep length must be non-negative"
    else Except.ok (some sleep_time, remaining)
  else Except.ok (none, remaining)

/-- One HTTP response of a paginated list endpoint: status code and decoded
JSON collection. -/
structure Resp (α : Type) where
  status : Nat
  data : List α
deriving DecidableEq

/-- The inner retry loop of `fetch_paginated_data` (lines 33-47): `att a` is
the response of attempt `a` on the current page; the first argument counts
down from `retries = 3`.  Returns the response held in the `response`
variable when the loop exits (`none` only when no iteration ran) together
with the total number of requests issued. -/
def retryLoop (att : Nat → Resp α) : Nat → Nat → Option (Resp α) × Nat
  | 0, a => (none, a)
  | r + 1, a =>
    let response := att a
    if response.status = 200 then (some response, a + 1)
    else
      match r with
      | 0 => (some response, a + 1)
      | _ + 1 => retryLoop att r (a + 1)

/-- The outer `while True:` pagination loop of `fetch_paginated_data`
(lines 30-57), with explicit fuel bounding the number of pages visited. -/
def fetch_loop (resp : Nat → Nat → Resp α) : Nat → Nat → List α → List α
  | 0, _, results => results
  | fuel + 1, page, results =>
    match retryLoop (resp page) 3 0 with
    | (none, _) => results
    | (some response, _) =>
      if response.status = 200 then
        if response.data.isEmpty then results
        else fetch_loop resp fuel (page + 1) (results ++ response.data)
      else results

/-- Embedding of `fetch_paginated_data` (lines 26-59): starts at page 1 with
empty `results`. -/
def fetch_paginated_data (resp : Nat → Nat → Resp α) (fuel : Nat) : List α :=
  fetch_loop resp fuel 1 []

/-- A user-profile response: status code and the profile's `"name"` field
(`none` when the field is absent). -/
structure ProfileResp where
  status : Nat
  name : Option String

/-- Embedding of `fetch_display_name` (lines 63-86).  Returns the display
name, the updated cache, and the list of usernames actually requested over
the network (empty on a cache hit, a singleton otherwise). -/
def fetch_display_name (net : String → ProfileResp) (cache : Cache)
    (username : String) : String × Cache × List String :=
  match cacheLookup cache username with
  | some v => (v, cache, [])
  | none =>
    let response := net username
    if response.status = 200 then
      let display_name := response.name.getD ""
      (display_name, (username, display_name) :: cache, [username])
    else
      ("", (username, "") :: cache, [username])

/-- A run of successive `fetch_display_name` invocations, threading the
cache; returns the final cache and the concatenated network-call log. -/
def run_resolver (net : String → ProfileResp) :
    List String → Cache → Cache × List String
  | [], cache => (cache, [])
  | u :: us, cache =>
    let r := fetch_display_name net cache u
    let rest := run_resolver net us r.2.1
    (rest.1, r.2.2 ++ rest.2)

/-- One raw item of the commits endpoint, restricted to the fields
`fetch_commits` reads: `commit["author"]["login"]` (as an `Option`, `none`
for a null author), `commit["commit"]["author"]["name"]`,
`commit["commit"]["author"]["date"]`, and `commit["sha"]`. -/
structure CommitItem where
  author : Option String
  commitAuthorName : String
  commitAuthorDate : String
  sha : String

/-- Embedding of the per-item loop of `fetch_commits` (lines 90-113), applied
to the already-fetched raw item list and threading the display-name cache;
also returns the resolver's network-call log. -/
def fetch_commits (net : String → ProfileResp) (repo : String) :
    List CommitItem → Cache → List Row × Cache × List String
  | [], cache => ([], cache, [])
  | commit :: rest, cache =>
    let username := commit.author.getD "Unknown"
    let r := fetch_display_name net cache username
    let display_name := if r.1 = "" then commit.commitAuthorName else r.1
    let tail := fetch_commits net repo rest r.2.1
    ([("sha", commit.sha), ("timestamp", commit.commitAuthorDate),
      ("username", username), ("name", display_name),
      ("action_type", "commit"), ("repository", repo)] :: tail.1,
     tail.2.1, r.2.2 ++ tail.2.2)

/-- One raw item of the issues / pulls / comments endpoints, restricted to
the fields the extractors read: `item["user"]["login"]` (as an `Option`,
`none` for a null user), `item["created_at"]`, and whether the
`"pull_request"` key is present (only consulted by `fetch_issues`). -/
structure Item where
  user : Option String
  created_at : String
  pull_request : Bool

/-- Embedding of the per-item loop of `fetch_issue_comments`
(lines 117-139). -/
def fetch_issue_comments (net : String → ProfileResp) (repo : String) :
    List Item → Cache → List Row × Cache × List String
  | [], cache => ([], cache, [])
  | comment :: rest, cache =>
    let username := comment.user.getD "Unknown"
    let r := if username ≠ "Unknown" then fetch_display_name net cache username
             else ("Unknown", cache, [])
    let tail := fetch_issue_comments net repo rest r.2.1
    ([("timestamp", comment.created_at), ("username", username),
      ("name", r.1), ("action_type", "issue comment"),
      ("repository", repo)] :: tail.1,
     tail.2.1, r.2.2 ++ tail.2.2)

/-- Embedding of the per-item loop of `fetch_pull_reviews`
(lines 143-165). -/
def fetch_pull_reviews (net : String → ProfileResp) (repo : String) :
    List Item → Cache → List Row × Cache × List String
  | [], cache => ([], cache, [])
  | review :: rest, cache =>
    let username := review.user.getD "Unknown"
    let r := if username ≠ "Unknown" then fetch_display_name net cache username
             else ("Unknown", cache, [])
    let tail := fetch_pull_reviews net repo rest r.2.1
    ([("timestamp", review.created_at), ("username", username),
      ("name", r.1), ("action_type", "PR comment"),
      ("repository", repo)] :: tail.1,
     tail.2.1, r.2.2 ++ tail.2.2)

/-- Embedding of the per-item loop of `fetch_pull_requests`
(lines 178-200). -/
def fetch_pull_requests (net : String → ProfileResp) (repo : String) :
    List Item → Cache → List Row × Cache × List String
  | [], cache => ([], cache, [])
  | pr :: rest, cache =>
    let username := pr.user.getD "Unknown"
    let r := if username ≠ "Unknown" then fetch_display_name net cache username
             else ("Unknown", cache, [])
    let tail := fetch_pull_requests net repo rest r.2.1
    ([("timestamp", pr.created_at), ("username", username),
      ("name", r.1), ("action_type", "PR opened"),
      ("repository", repo)] :: tail.1,
     tail.2.1, r.2.2 ++ tail.2.2)

/-- Embedding of the per-item loop of `fetch_issues` (lines 204-228),
including the `if "pull_request" not in issue:` guard that skips pull
requests. -/
def fetch_issues (net : String → ProfileResp) (repo : String) :
    List Item → Cache → List Row × Cache × List String
  | [], cache => ([], cache, [])
  | issue :: rest, cache =>
    if issue.pull_request then fetch_issues net repo rest cache
    else
      let username := issue.user.getD "Unknown"
      let r := if username ≠ "Unknown" then fetch_display_name net cache username
               else ("Unknown", cache, [])
      let tail := fetch_issues net repo rest r.2.1
      ([("timestamp", issue.created_at), ("username", username),
        ("name", r.1), ("action_type", "issue opened"),
        ("repository", repo)] :: tail.1,
       tail.2.1, r.2.2 ++ tail.2.2)

/-- Embedding of `filter_duplicate_commits` (lines 169-174): the subset of
`target_commits` whose sha is not in the source's sha set, in order. -/
def filter_duplicate_commits (source_commits target_commits : List Row) :
    List Row :=
  let source_shas := source_commits.map (fun commit => rowGet commit "sha")
  target_commits.filter (fun commit => decide (rowGet commit "sha" ∉ source_shas))

/-- Embedding of `del df["sha"]` (line 272): the column is removed from
every row. -/
def del_column (col : String) (rows : List Row) : List Row :=
  rows.map (fun r => r.filter (fun kv => kv.1 != col))

/-- The parsed-timestamp sort key of a row; `parse` abstracts
`pd.to_datetime`, mapping a timestamp string to a comparable instant. -/
def timestamp_key (parse : String → Nat) (r : Row) : Nat :=
  parse ((rowGet r "timestamp").getD "")

/-- Embedding of `df.sort_values(by="timestamp")` (line 274): sorting the
rows by parsed timestamp (any ≤-sort yields the adjacency invariant). -/
def sort_by_timestamp (parse : String → Nat) (rows : List Row) : List Row :=
  List.insertionSort
    (fun a b => timestamp_key parse a ≤ timestamp_key parse b) rows

/-- The module-level output stage (lines 272-274): drop the sha column,
parse timestamps, sort ascending by timestamp.  `reset_index(drop=True)` is
the identity on the row sequence. -/
def final_output (parse : String → Nat) (rows : List Row) : List Row :=
  sort_by_timestamp parse (del_column "sha" rows)

/-! Sample rows shared by concrete witnesses (spec end-to-end scenario 1). -/

/-- A commit row with sha `sha1`. -/
def rowSha1 : Row := [("sha", "sha1"), ("timestamp", "t1")]

/-- A commit row with sha `sha2`. -/
def rowSha2 : Row := [("sha", "sha2"), ("timestamp", "t2")]

/-- A commit row with sha `sha3`. -/
def rowSha3 : Row := [("sha", "sha3"), ("timestamp", "t3")]

/-- C1: for all commit lists A (canonical) and B (target),
`filter_duplicate_commits A B` contains no item whose sha appears in the set
of shas of A, and every item of B either appears in the result or has a sha
present in A's sha set (partition: no commit is dropped for any reason other
than sha membership in A). -/
theorem filter_duplicate_commits_partition (A B : List Row) :
    (∀ c ∈ filter_duplicate_commits A B,
      rowGet c "sha" ∉ A.map (fun s => rowGet s "sha")) ∧
    (∀ c ∈ B, c ∈ filter_duplicate_commits A B ∨
      rowGet c "sha" ∈ A.map (fun s => rowGet s "sha")) := by
  constructor
  · intro c hc
    have h := List.mem_filter.mp hc
    simpa using h.2
  · intro c hc
    by_cases h : rowGet c "sha" ∈ A.map (fun s => rowGet s "sha")
    · exact Or.inr h
    · exact Or.inl (List.mem_filter.mpr ⟨hc, by simpa using h⟩)

/-- Witness for C1 at the spec's end-to-end scenario 1: canonical shas
`[sha1, sha2]`, mirror shas `[sha1, sha3]`. -/
theorem filter_duplicate_commits_partition_witness :
    (∀ c ∈ filter_duplicate_commits [rowSha1, rowSha2] [rowSha1, rowSha3],
      rowGet c "sha" ∉ [rowSha1, rowSha2].map (fun s => rowGet s "sha")) ∧
    (∀ c ∈ [rowSha1, rowSha3],
      c ∈ filter_duplicate_commits [rowSha1, rowSha2] [rowSha1, rowSha3] ∨
      rowGet c "sha" ∈ [rowSha1, rowSha2].map (fun s => rowGet s "sha")) :=
  filter_duplicate_commits_partition [rowSha1, rowSha2] [rowSha1, rowSha3]

/-- C10: `filter_duplicate_commits` preserves the relative order of the
target commits (its result is a sublist, i.e. an in-order subsequence, of
`target_commits`), and membership in the result is exactly membership in
`target_commits` with a sha outside the canonical sha set.  The embedding is
a pure function on immutable lists, mirroring that the Python code builds a
fresh list via a comprehension and never mutates either argument. -/
theorem filter_duplicate_commits_order (A B : List Row) :
    (filter_duplicate_commits A B).Sublist B ∧
    ∀ c, c ∈ filter_duplicate_commits A B ↔
      c ∈ B ∧ rowGet c "sha" ∉ A.map (fun s => rowGet s "sha") := by
  constructor
  · unfold filter_duplicate_commits
    exact List.filter_sublist B
  · intro c
    simp [filter_duplicate_commits, List.mem_filter]

/-- Witness for C10 at concrete lists: the result keeps `[rowSha2, rowSha3]`
in their original relative order. -/
theorem filter_duplicate_commits_order_witness :
    (filter_duplicate_commits [rowSha1] [rowSha2, rowSha1, rowSha3]).Sublist
      [rowSha2, rowSha1, rowSha3] ∧
    ∀ c, c ∈ filter_duplicate_commits [rowSha1] [rowSha2, rowSha1, rowSha3] ↔
      c ∈ [rowSha2, rowSha1, rowSha3] ∧
      rowGet c "sha" ∉ [rowSha1].map (fun s => rowGet s "sha") :=
  filter_duplicate_commits_order [rowSha1] [rowSha2, rowSha1, rowSha3]

/-- C6 counterexample: the code has no lower bound on the sleep duration.
With remaining = 0 and the reset epoch one second in the past the computed
duration is exactly 0 (a zero-length sleep, which the claim excludes), and
with the reset epoch far in the past the duration is negative, so
`time.sleep` raises `ValueError` and `check_rate_limit` does not return the
remaining count at all. -/
theorem check_rate_limit_counterexample :
    check_rate_limit 0 99 100 = Except.ok (some 0, 0) ∧
    check_rate_limit 0 10 20 = Except.error "sleep length must be non-negative" :=
  ⟨rfl, rfl⟩

/-- C6 amended: when the remaining count is zero, `check_rate_limit` sleeps
exactly reset-epoch − current-epoch + 1 seconds with no flooring: if that
duration is nonnegative (it may be zero) it sleeps it and returns the
remaining count, and if it is negative the sleep raises and nothing is
returned; when the remaining count is nonzero it sleeps nothing and returns
the remaining count. -/
theorem check_rate_limit_amended (remaining reset_time now : Int) :
    (remaining = 0 → 0 ≤ reset_time - now + 1 →
      check_rate_limit remaining reset_time now =
        Except.ok (some (reset_time - now + 1), 0)) ∧
    (remaining = 0 → reset_time - now + 1 < 0 →
      check_rate_limit remaining reset_time now =
        Except.error "sleep length must be non-negative") ∧
    (remaining ≠ 0 →
      check_rate_limit remaining reset_time now =
        Except.ok (none, remaining)) := by
  refine ⟨fun h0 hpos => ?_, fun h0 hneg => ?_, fun hne => ?_⟩
  · subst h0
    simp [check_rate_limit, not_lt.mpr hpos]
  · subst h0
    simp [check_rate_limit, hneg]
  · simp [check_rate_limit, hne]

/-- Witness for C6 amended at the spec's end-to-end scenario 3:
remaining = 0, reset epoch 5 seconds ahead of now, so the computed sleep is
6 seconds. -/
theorem check_rate_limit_amended_witness :
    check_rate_limit 0 105 100 = Except.ok (some 6, 0) := by
  have h := (check_rate_limit_amended 0 105 100).1 rfl (by decide)
  simpa using h

/-! Pagination lemmas (C2, C3). -/

/-- When the first attempt on a page succeeds, the retry loop returns it
after a single request. -/
theorem retryLoop_first_ok (att : Nat → Resp α) (h : (att 0).status = 200) :
    retryLoop att 3 0 = (some (att 0), 1) := by
  simp [retryLoop, h]

/-- When all three attempts on a page fail, the retry loop exits holding the
third response after exactly three requests. -/
theorem retryLoop_all_fail (att : Nat → Resp α)
    (h : ∀ a ∈ List.range 3, (att a).status ≠ 200) :
    retryLoop att 3 0 = (some (att 2), 3) := by
  have h0 := h 0 (by decide)
  have h1 := h 1 (by decide)
  have h2 := h 2 (by decide)
  simp [retryLoop, h0, h1, h2]

/-- The retry loop never issues more than three requests. -/
theorem retryLoop_attempts_le (att : Nat → Resp α) :
    (retryLoop att 3 0).2 ≤ 3 := by
  by_cases h0 : (att 0).status = 200
  · simp [retryLoop, h0]
  · by_cases h1 : (att 1).status = 200
    · simp [retryLoop, h0, h1]
    · by_cases h2 : (att 2).status = 200
      · simp [retryLoop, h0, h1, h2]
      · simp [retryLoop, h0, h1, h2]

/-- Running the pagination loop across `n` pages that all answer 200 with
nonempty data on the first attempt accumulates those pages' items in order
and proceeds to the following page. -/
theorem fetch_loop_shift (resp : Nat → Nat → Resp α) (n : Nat) :
    ∀ (page fuel : Nat) (acc : List α), n ≤ fuel →
    (∀ p ∈ List.range' page n, (resp p 0).status = 200 ∧ (resp p 0).data ≠ []) →
    fetch_loop resp fuel page acc =
      fetch_loop resp (fuel - n) (page + n)
        (acc ++ (List.range' page n).flatMap (fun p => (resp p 0).data)) := by
  induction n with
  | zero =>
    intro page fuel acc _ _
    simp
  | succ n ih =>
    intro page fuel acc hle hok
    obtain ⟨f, rfl⟩ : ∃ f, fuel = f + 1 := ⟨fuel - 1, by omega⟩
    have hpage : (resp page 0).status = 200 ∧ (resp page 0).data ≠ [] :=
      hok page (by rw [List.range'_succ]; exact List.mem_cons_self _ _)
    have hrest : ∀ p ∈ List.range' (page + 1) n,
        (resp p 0).status = 200 ∧ (resp p 0).data ≠ [] := by
      intro p hp
      exact hok p (by rw [List.range'_succ]; exact List.mem_cons_of_mem _ hp)
    have hempty : (resp page 0).data.isEmpty = false := by
      simp only [← List.isEmpty_iff] at hpage
      exact Bool.not_eq_true _ ▸ (by simpa using hpage.2)
    have step : fetch_loop resp (f + 1) page acc =
        fetch_loop resp f (page + 1) (acc ++ (resp page 0).data) := by
      rw [fetch_loop, retryLoop_first_ok (resp page) hpage.1]
      simp [hpage.1, hempty]
    have e1 : f + 1 - (n + 1) = f - n := by omega
    have e2 : page + (n + 1) = page + 1 + n := by omega
    rw [e1, e2, List.range'_succ, List.flatMap_cons, ← List.append_assoc, step]
    exact ih (page + 1) f (acc ++ (resp page 0).data) (by omega) hrest

/-- C2: when every page up to the first empty page `k` answers 200 on its
first attempt, pages 1, 2, … of the preceding pages are nonempty, and page
`k` returns an empty collection, `fetch_paginated_data` returns exactly the
in-order concatenation of pages 1 … k−1, whose length is the sum of those
pages' item counts; page `k` and everything after it contribute nothing. -/
theorem fetch_paginated_data_first_empty (resp : Nat → Nat → Resp α)
    (k fuel : Nat) (hk : 1 ≤ k) (hfuel : k ≤ fuel)
    (hprev : ∀ p ∈ List.range' 1 (k - 1),
      (resp p 0).status = 200 ∧ (resp p 0).data ≠ [])
    (hklast : (resp k 0).status = 200) (hkempty : (resp k 0).data = []) :
    fetch_paginated_data resp fuel =
      (List.range' 1 (k - 1)).flatMap (fun p => (resp p 0).data) ∧
    (fetch_paginated_data resp fuel).length =
      ((List.range' 1 (k - 1)).map (fun p => (resp p 0).data.length)).sum := by
  have hshift := fetch_loop_shift resp (k - 1) 1 fuel [] (by omega) hprev
  have e : 1 + (k - 1) = k := by omega
  rw [e, List.nil_append] at hshift
  obtain ⟨g, hg⟩ : ∃ g, fuel - (k - 1) = g + 1 := ⟨fuel - (k - 1) - 1, by omega⟩
  rw [hg] at hshift
  have hterm : ∀ acc : List α, fetch_loop resp (g + 1) k acc = acc := by
    intro acc
    rw [fetch_loop, retryLoop_first_ok (resp k) hklast]
    simp [hklast, hkempty]
  have hmain : fetch_paginated_data resp fuel =
      (List.range' 1 (k - 1)).flatMap (fun p => (resp p 0).data) := by
    rw [fetch_paginated_data, hshift, hterm]
  refine ⟨hmain, ?_⟩
  rw [hmain, List.length_flatMap]
  simp [Function.comp_def]

/-- Page oracle for the C2 witness: pages 1 and 2 return one item each,
page 3 returns an empty list. -/
def respPages : Nat → Nat → Resp Nat :=
  fun p _ => if p ≤ 2 then ⟨200, [p]⟩ else ⟨200, []⟩

/-- Witness for C2 at a concrete page oracle: the result is pages 1 and 2
concatenated and its length is the sum of their item counts. -/
theorem fetch_paginated_data_first_empty_witness :
    fetch_paginated_data respPages 9 =
      (List.range' 1 2).flatMap (fun p => (respPages p 0).data) ∧
    (fetch_paginated_data respPages 9).length =
      ((List.range' 1 2).map (fun p => (respPages p 0).data.length)).sum :=
  fetch_paginated_data_first_empty respPages 3 9 (by decide) (by decide)
    (by decide) (by decide) (by decide)

/-- C3: each page request makes at most 3 attempts, and when the three
attempts on page `k` all return a non-success status (pages before `k`
succeeding with nonempty data), pagination is abandoned and the function
returns the items accumulated from pages 1 … k−1 — a silent partial result,
with no exception (the embedding is total and always yields a list). -/
theorem fetch_paginated_data_retry_abandon (resp : Nat → Nat → Resp α)
    (k fuel : Nat) (hk : 1 ≤ k) (hfuel : k ≤ fuel)
    (hprev : ∀ p ∈ List.range' 1 (k - 1),
      (resp p 0).status = 200 ∧ (resp p 0).data ≠ [])
    (hfail : ∀ a ∈ List.range 3, (resp k a).status ≠ 200) :
    (∀ p ∈ List.range' 1 k, (retryLoop (resp p) 3 0).2 ≤ 3) ∧
    fetch_paginated_data resp fuel =
      (List.range' 1 (k - 1)).flatMap (fun p => (resp p 0).data) := by
  refine ⟨fun p _ => retryLoop_attempts_le (resp p), ?_⟩
  have hshift := fetch_loop_shift resp (k - 1) 1 fuel [] (by omega) hprev
  have e : 1 + (k - 1) = k := by omega
  rw [e, List.nil_append] at hshift
  obtain ⟨g, hg⟩ : ∃ g, fuel - (k - 1) = g + 1 := ⟨fuel - (k - 1) - 1, by omega⟩
  rw [hg] at hshift
  have hterm : ∀ acc : List α, fetch_loop resp (g + 1) k acc = acc := by
    intro acc
    rw [fetch_loop, retryLoop_all_fail (resp k) hfail]
    simp [hfail 2 (by decide)]
  rw [fetch_paginated_data, hshift, hterm]

/-- Page oracle for the C3 witness: page 1 succeeds with one item, page 2
fails with status 500 on every attempt. -/
def respFail : Nat → Nat → Resp Nat :=
  fun p _ => if p = 1 then ⟨200, [7]⟩ else ⟨500, []⟩

/-- Witness for C3 at a concrete page oracle: at most 3 attempts per page,
and the failing page 2 truncates the result to page 1's items. -/
theorem fetch_paginated_data_retry_abandon_witness :
    (∀ p ∈ List.range' 1 2, (retryLoop (respFail p) 3 0).2 ≤ 3) ∧
    fetch_paginated_data respFail 5 =
      (List.range' 1 1).flatMap (fun p => (respFail p 0).data) :=
  fetch_paginated_data_retry_abandon respFail 2 5 (by decide) (by decide)
    (by decide) (by decide)

/-! Display-name memoization lemmas (C4). -/

/-- Cache lookup after inserting one binding at the front. -/
theorem cacheLookup_cons (w x u : String) (cache : Cache) :
    cacheLookup ((w, x) :: cache) u =
      if w == u then some x else cacheLookup cache u := by
  by_cases h : w == u
  · simp [cacheLookup, List.find?_cons, h]
  · simp [cacheLookup, List.find?_cons, h]

/-- On a cache miss, `fetch_display_name` memoizes some display name for the
requested username and logs exactly one network call. -/
theorem fetch_display_name_miss (net : String → ProfileResp) (cache : Cache)
    (w : String) (hcw : cacheLookup cache w = none) :
    ∃ dn, fetch_display_name net cache w = (dn, (w, dn) :: cache, [w]) := by
  by_cases hst : (net w).status = 200
  · exact ⟨(net w).name.getD "", by simp [fetch_display_name, hcw, hst]⟩
  · exact ⟨"", by simp [fetch_display_name, hcw, hst]⟩

/-- Once a username is present in the cache, no later invocation in a run
issues a network call for it. -/
theorem run_resolver_count_zero (net : String → ProfileResp)
    (us : List String) : ∀ (cache : Cache) (u : String),
    (cacheLookup cache u).isSome →
    (run_resolver net us cache).2.count u = 0 := by
  induction us with
  | nil =>
    intro cache u _
    simp [run_resolver]
  | cons w ws ih =>
    intro cache u hu
    cases hcw : cacheLookup cache w with
    | some v =>
      simp only [run_resolver, fetch_display_name, hcw]
      simpa using ih cache u hu
    | none =>
      obtain ⟨dn, hfd⟩ := fetch_display_name_miss net cache w hcw
      have hwu : ¬ w = u := by
        intro h
        rw [h] at hcw
        rw [hcw] at hu
        exact Bool.noConfusion hu
      simp only [run_resolver, hfd]
      rw [List.count_append]
      have h1 : List.count u [w] = 0 := by
        simp [List.count_cons, hwu]
      have h2 : (run_resolver net ws ((w, dn) :: cache)).2.count u = 0 := by
        refine ih ((w, dn) :: cache) u ?_
        rw [cacheLookup_cons]
        by_cases hb : w == u
        · simp [hb]
        · simpa [hb] using hu
      simp [h1, h2]

/-- C4: for a fixed username, over any sequence of `fetch_display_name`
invocations in a run, at most one network profile request is made for that
username, and once the username is cached every call returns the cached
value with no network call and no cache change. -/
theorem display_name_memoized (net : String → ProfileResp) (us : List String)
    (cache : Cache) (u : String) :
    (run_resolver net us cache).2.count u ≤ 1 ∧
    (∀ v, cacheLookup cache u = some v →
      fetch_display_name net cache u = (v, cache, [])) := by
  refine ⟨?_, fun v hv => by simp [fetch_display_name, hv]⟩
  induction us generalizing cache with
  | nil => simp [run_resolver]
  | cons w ws ih =>
    cases hcw : cacheLookup cache w with
    | some v =>
      simp only [run_resolver, fetch_display_name, hcw]
      simpa using ih cache
    | none =>
      obtain ⟨dn, hfd⟩ := fetch_display_name_miss net cache w hcw
      simp only [run_resolver, hfd]
      rw [List.count_append]
      by_cases hwu : w = u
      · subst hwu
        have h1 : List.count w [w] = 1 := by simp
        have h2 : (run_resolver net ws ((w, dn) :: cache)).2.count w = 0 := by
          refine run_resolver_count_zero net ws ((w, dn) :: cache) w ?_
          simp [cacheLookup_cons]
        simp [h1, h2]
      · have h1 : List.count u [w] = 0 := by simp [List.count_cons, hwu]
        have h2 := ih ((w, dn) :: cache)
        omega

/-- Profile oracle for the C4 witness: every profile resolves with display
name `Nia`. -/
def netOk : String → ProfileResp := fun _ => ⟨200, some "Nia"⟩

/-- Witness for C4 at a concrete run: `alice` is looked up twice but
requested over the network at most once. -/
theorem display_name_memoized_witness :
    (run_resolver netOk ["alice", "alice", "bob"] []).2.count "alice" ≤ 1 ∧
    (∀ v, cacheLookup [] "alice" = some v →
      fetch_display_name netOk [] "alice" = (v, [], [])) :=
  display_name_memoized netOk ["alice", "alice", "bob"] [] "alice"

/-! Final-dataset invariants (C5). -/

/-- C5: in the final persisted dataset, every pair of adjacent rows is
ordered ascending by parsed timestamp (for any timestamp parser), and no row
retains a "sha" column; the dense 0-based index is the list position
itself. -/
theorem final_output_sorted_no_sha (parse : String → Nat) (rows : List Row) :
    List.Chain' (fun a b => timestamp_key parse a ≤ timestamp_key parse b)
      (final_output parse rows) ∧
    ∀ r ∈ final_output parse rows, ∀ kv ∈ r, kv.1 ≠ "sha" := by
  constructor
  · haveI : IsTotal Row (fun a b => timestamp_key parse a ≤ timestamp_key parse b) :=
      ⟨fun a b => Nat.le_total _ _⟩
    haveI : IsTrans Row (fun a b => timestamp_key parse a ≤ timestamp_key parse b) :=
      ⟨fun a b c hab hbc => Nat.le_trans hab hbc⟩
    have hs : List.Sorted (fun a b => timestamp_key parse a ≤ timestamp_key parse b)
        (final_output parse rows) :=
      List.sorted_insertionSort _ _
    exact List.Pairwise.chain' hs
  · intro r hr kv hkv
    have hperm := List.perm_insertionSort
      (fun a b => timestamp_key parse a ≤ timestamp_key parse b)
      (del_column "sha" rows)
    have hr2 : r ∈ del_column "sha" rows := hperm.mem_iff.mp hr
    obtain ⟨r0, _, hr0⟩ := List.mem_map.mp hr2
    rw [← hr0] at hkv
    have hkv2 := List.mem_filter.mp hkv
    simpa using hkv2.2

/-- Witness for C5 at a concrete parser and row list. -/
theorem final_output_sorted_no_sha_witness :
    List.Chain' (fun a b =>
      timestamp_key String.length a ≤ timestamp_key String.length b)
      (final_output String.length [rowSha2, rowSha1, rowSha3]) ∧
    ∀ r ∈ final_output String.length [rowSha2, rowSha1, rowSha3],
      ∀ kv ∈ r, kv.1 ≠ "sha" :=
  final_output_sorted_no_sha String.length [rowSha2, rowSha1, rowSha3]

/-! Sentinel-username handling in the extractors (C7). -/

/-- The resolver's network-call log of one invocation is empty or the
singleton of the requested username. -/
theorem fetch_display_name_log (net : String → ProfileResp) (cache : Cache)
    (u : String) :
    (fetch_display_name net cache u).2.2 = [] ∨
    (fetch_display_name net cache u).2.2 = [u] := by
  cases h : cacheLookup cache u with
  | some v => simp [fetch_display_name, h]
  | none =>
    obtain ⟨dn, hfd⟩ := fetch_display_name_miss net cache u h
    simp [hfd]

/-- The issue-comment extractor never invokes the resolver for the sentinel
username, and rows whose username is the sentinel carry display name
`Unknown`. -/
theorem fetch_issue_comments_unknown (net : String → ProfileResp)
    (repo : String) (items : List Item) : ∀ cache : Cache,
    "Unknown" ∉ (fetch_issue_comments net repo items cache).2.2 ∧
    ∀ r ∈ (fetch_issue_comments net repo items cache).1,
      rowGet r "username" = some "Unknown" →
      rowGet r "name" = some "Unknown" := by
  induction items with
  | nil =>
    intro cache
    simp [fetch_issue_comments]
  | cons item rest ih =>
    intro cache
    by_cases hu : item.user.getD "Unknown" = "Unknown"
    · simp only [fetch_issue_comments, hu, ne_eq, not_true_eq_false, if_false]
      constructor
      · simpa using (ih cache).1
      · intro r hr
        rcases List.mem_cons.mp hr with hhead | htail
        · subst hhead
          intro _
          rfl
        · exact (ih cache).2 r htail
    · simp only [fetch_issue_comments, hu, ne_eq, not_false_eq_true, if_true]
      constructor
      · intro hmem
        rcases List.mem_append.mp hmem with hl | hr2
        · rcases fetch_display_name_log net cache (item.user.getD "Unknown") with h | h
          · rw [h] at hl
            exact List.not_mem_nil _ hl
          · rw [h] at hl
            exact hu (List.mem_singleton.mp hl).symm
        · exact (ih _).1 hr2
      · intro r hr
        rcases List.mem_cons.mp hr with hhead | htail
        · subst hhead
          intro hun
          exfalso
          apply hu
          have h2 : some (item.user.getD "Unknown") = some "Unknown" := by
            simpa [rowGet] using hun
          exact Option.some.inj h2
        · exact (ih _).2 r htail

/-- The review-comment extractor never invokes the resolver for the sentinel
username, and rows whose username is the sentinel carry display name
`Unknown`. -/
theorem fetch_pull_reviews_unknown (net : String → ProfileResp)
    (repo : String) (items : List Item) : ∀ cache : Cache,
    "Unknown" ∉ (fetch_pull_reviews net repo items cache).2.2 ∧
    ∀ r ∈ (fetch_pull_reviews net repo items cache).1,
      rowGet r "username" = some "Unknown" →
      rowGet r "name" = some "Unknown" := by
  induction items with
  | nil =>
    intro cache
    simp [fetch_pull_reviews]
  | cons item rest ih =>
    intro cache
    by_cases hu : item.user.getD "Unknown" = "Unknown"
    · simp only [fetch_pull_reviews, hu, ne_eq, not_true_eq_false, if_false]
      constructor
      · simpa using (ih cache).1
      · intro r hr
        rcases List.mem_cons.mp hr with hhead | htail
        · subst hhead
          intro _
          rfl
        · exact (ih cache).2 r htail
    · simp only [fetch_pull_reviews, hu, ne_eq, not_false_eq_true, if_true]
      constructor
      · intro hmem
        rcases List.mem_append.mp hmem with hl | hr2
        · rcases fetch_display_name_log net cache (item.user.getD "Unknown") with h | h
          · rw [h] at hl
            exact List.not_mem_nil _ hl
          · rw [h] at hl
            exact hu (List.mem_singleton.mp hl).symm
        · exact (ih _).1 hr2
      · intro r hr
        rcases List.mem_cons.mp hr with hhead | htail
        · subst hhead
          intro hun
          exfalso
          apply hu
          have h2 : some (item.user.getD "Unknown") = some "Unknown" := by
            simpa [rowGet] using hun
          exact Option.some.inj h2
        · exact (ih _).2 r htail

/-- The pull-request extractor never invokes the resolver for the sentinel
username, and rows whose username is the sentinel carry display name
`Unknown`. -/
theorem fetch_pull_requests_unknown (net : String → ProfileResp)
    (repo : String) (items : List Item) : ∀ cache : Cache,
    "Unknown" ∉ (fetch_pull_requests net repo items cache).2.2 ∧
    ∀ r ∈ (fetch_pull_requests net repo items cache).1,
      rowGet r "username" = some "Unknown" →
      rowGet r "name" = some "Unknown" := by
  induction items with
  | nil =>
    intro cache
    simp [fetch_pull_requests]
  | cons item rest ih =>
    intro cache
    by_cases hu : item.user.getD "Unknown" = "Unknown"
    · simp only [fetch_pull_requests, hu, ne_eq, not_true_eq_false, if_false]
      constructor
      · simpa using (ih cache).1
      · intro r hr
        rcases List.mem_cons.mp hr with hhead | htail
        · subst hhead
          intro _
          rfl
        · exact (ih cache).2 r htail
    · simp only [fetch_pull_requests, hu, ne_eq, not_false_eq_true, if_true]
      constructor
      · intro hmem
        rcases List.mem_append.mp hmem with hl | hr2
        · rcases fetch_display_name_log net cache (item.user.getD "Unknown") with h | h
          · rw [h] at hl
            exact List.not_mem_nil _ hl
          · rw [h] at hl
            exact hu (List.mem_singleton.mp hl).symm
        · exact (ih _).1 hr2
      · intro r hr
        rcases List.mem_cons.mp hr with hhead | htail
        · subst hhead
          intro hun
          exfalso
          apply hu
          have h2 : some (item.user.getD "Unknown") = some "Unknown" := by
            simpa [rowGet] using hun
          exact Option.some.inj h2
        · exact (ih _).2 r htail

/-- The issue extractor never invokes the resolver for the sentinel
username, and rows whose username is the sentinel carry display name
`Unknown`. -/
theorem fetch_issues_unknown (net : String → ProfileResp)
    (repo : String) (items : List Item) : ∀ cache : Cache,
    "Unknown" ∉ (fetch_issues net repo items cache).2.2 ∧
    ∀ r ∈ (fetch_issues net repo items cache).1,
      rowGet r "username" = some "Unknown" →
      rowGet r "name" = some "Unknown" := by
  induction items with
  | nil =>
    intro cache
    simp [fetch_issues]
  | cons item rest ih =>
    intro cache
    by_cases hpr : item.pull_request = true
    · simp only [fetch_issues, hpr, if_true]
      exact ih cache
    · by_cases hu : item.user.getD "Unknown" = "Unknown"
      · simp only [fetch_issues, hpr, Bool.false_eq_true, if_false, hu, ne_eq,
          not_true_eq_false]
        constructor
        · simpa using (ih cache).1
        · intro r hr
          rcases List.mem_cons.mp hr with hhead | htail
          · subst hhead
            intro _
            rfl
          · exact (ih cache).2 r htail
      · simp only [fetch_issues, hpr, Bool.false_eq_true, if_false, hu, ne_eq,
          not_false_eq_true, if_true]
        constructor
        · intro hmem
          rcases List.mem_append.mp hmem with hl | hr2
          · rcases fetch_display_name_log net cache (item.user.getD "Unknown") with h | h
            · rw [h] at hl
              exact List.not_mem_nil _ hl
            · rw [h] at hl
              exact hu (List.mem_singleton.mp hl).symm
          · exact (ih _).1 hr2
        · intro r hr
          rcases List.mem_cons.mp hr with hhead | htail
          · subst hhead
            intro hun
            exfalso
            apply hu
            have h2 : some (item.user.getD "Unknown") = some "Unknown" := by
              simpa [rowGet] using hun
            exact Option.some.inj h2
          · exact (ih _).2 r htail

/-- Profile oracle for the C7 counterexample: every profile lookup fails
with status 404. -/
def netFail : String → ProfileResp := fun _ => ⟨404, none⟩

/-- A raw commit item whose author reference is null. -/
def nullAuthorCommit : CommitItem :=
  { author := none, commitAuthorName := "Alice Doe",
    commitAuthorDate := "2020-01-01T00:00:00Z", sha := "abc123" }

/-- C7 counterexample: the commit extractor does not skip the lookup for the
sentinel username.  On a null-author commit with an empty cache it invokes
the resolver with "Unknown" (one network call is logged), and the emitted
display name is the commit's embedded author name, not "Unknown". -/
theorem fetch_commits_unknown_counterexample :
    (fetch_commits netFail "r" [nullAuthorCommit] []).2.2 = ["Unknown"] ∧
    rowGet ((fetch_commits netFail "r" [nullAuthorCommit] []).1.headI)
      "name" = some "Alice Doe" :=
  ⟨rfl, rfl⟩

/-- A sample raw item with a null user reference. -/
def nullUserItem : Item :=
  { user := none, created_at := "2021-05-05T00:00:00Z", pull_request := false }

/-- C7 amended: the issue, pull-request, issue-comment and review-comment
extractors skip the display-name lookup for the sentinel username "Unknown"
(the resolver is invoked only for non-"Unknown" usernames, and their rows
with username "Unknown" use "Unknown" directly as display name); the commit
extractor instead always invokes the resolver — on a null-author commit with
"Unknown" uncached it issues a network call for "Unknown". -/
theorem extractors_unknown_amended (net : String → ProfileResp)
    (repo : String) (items : List Item) (cache : Cache)
    (commitItem : CommitItem) (hauthor : commitItem.author = none)
    (hmiss : cacheLookup cache "Unknown" = none) :
    ("Unknown" ∉ (fetch_issue_comments net repo items cache).2.2 ∧
     ∀ r ∈ (fetch_issue_comments net repo items cache).1,
       rowGet r "username" = some "Unknown" →
       rowGet r "name" = some "Unknown") ∧
    ("Unknown" ∉ (fetch_pull_reviews net repo items cache).2.2 ∧
     ∀ r ∈ (fetch_pull_reviews net repo items cache).1,
       rowGet r "username" = some "Unknown" →
       rowGet r "name" = some "Unknown") ∧
    ("Unknown" ∉ (fetch_pull_requests net repo items cache).2.2 ∧
     ∀ r ∈ (fetch_pull_requests net repo items cache).1,
       rowGet r "username" = some "Unknown" →
       rowGet r "name" = some "Unknown") ∧
    ("Unknown" ∉ (fetch_issues net repo items cache).2.2 ∧
     ∀ r ∈ (fetch_issues net repo items cache).1,
       rowGet r "username" = some "Unknown" →
       rowGet r "name" = some "Unknown") ∧
    (fetch_commits net repo [commitItem] cache).2.2 = ["Unknown"] := by
  refine ⟨fetch_issue_comments_unknown net repo items cache,
    fetch_pull_reviews_unknown net repo items cache,
    fetch_pull_requests_unknown net repo items cache,
    fetch_issues_unknown net repo items cache, ?_⟩
  obtain ⟨dn, hfd⟩ := fetch_display_name_miss net cache "Unknown" hmiss
  simp [fetch_commits, hauthor, hfd]

/-- Witness for C7 amended at a concrete oracle, item list and commit. -/
theorem extractors_unknown_amended_witness :
    ("Unknown" ∉ (fetch_issue_comments netOk "r" [nullUserItem] []).2.2 ∧
     ∀ r ∈ (fetch_issue_comments netOk "r" [nullUserItem] []).1,
       rowGet r "username" = some "Unknown" →
       rowGet r "name" = some "Unknown") ∧
    ("Unknown" ∉ (fetch_pull_reviews netOk "r" [nullUserItem] []).2.2 ∧
     ∀ r ∈ (fetch_pull_reviews netOk "r" [nullUserItem] []).1,
       rowGet r "username" = some "Unknown" →
       rowGet r "name" = some "Unknown") ∧
    ("Unknown" ∉ (fetch_pull_requests netOk "r" [nullUserItem] []).2.2 ∧
     ∀ r ∈ (fetch_pull_requests netOk "r" [nullUserItem] []).1,
       rowGet r "username" = some "Unknown" →
       rowGet r "name" = some "Unknown") ∧
    ("Unknown" ∉ (fetch_issues netOk "r" [nullUserItem] []).2.2 ∧
     ∀ r ∈ (fetch_issues netOk "r" [nullUserItem] []).1,
       rowGet r "username" = some "Unknown" →
       rowGet r "name" = some "Unknown") ∧
    (fetch_commits netOk "r" [nullAuthorCommit] []).2.2 = ["Unknown"] :=
  extractors_unknown_amended netOk "r" [nullUserItem] [] nullAuthorCommit
    rfl rfl

/-! Profile-failure fallback (C8). -/

/-- C8: when the profile lookup for an uncached username returns a
non-success status, `fetch_display_name` caches and returns the empty
string, and a commit record authored by that user then uses the commit's
embedded author name as its display name; conversely, when the resolved
display name is a nonempty cached value, the commit uses that resolved name
— the fallback applies exactly when the resolved display name is empty. -/
theorem profile_404_fallback (net : String → ProfileResp) (cache : Cache)
    (u : String) (item : CommitItem) (repo : String)
    (h404 : (net u).status ≠ 200) (hmiss : cacheLookup cache u = none)
    (hauth : item.author = some u) :
    fetch_display_name net cache u = ("", (u, "") :: cache, [u]) ∧
    (fetch_commits net repo [item] cache).1 =
      [[("sha", item.sha), ("timestamp", item.commitAuthorDate),
        ("username", u), ("name", item.commitAuthorName),
        ("action_type", "commit"), ("repository", repo)]] ∧
    (∀ (cache2 : Cache) (v : String),
      cacheLookup cache2 u = some v → v ≠ "" →
      (fetch_commits net repo [item] cache2).1 =
        [[("sha", item.sha), ("timestamp", item.commitAuthorDate),
          ("username", u), ("name", v),
          ("action_type", "commit"), ("repository", repo)]]) := by
  have hfd : fetch_display_name net cache u = ("", (u, "") :: cache, [u]) := by
    simp [fetch_display_name, hmiss, h404]
  refine ⟨hfd, ?_, ?_⟩
  · simp [fetch_commits, hauth, hfd]
  · intro cache2 v hv hne
    simp [fetch_commits, hauth, fetch_display_name, hv, hne]

/-- A raw commit item authored by `alice`, with an embedded author name. -/
def aliceCommit : CommitItem :=
  { author := some "alice", commitAuthorName := "Alice Doe",
    commitAuthorDate := "2020-02-02T00:00:00Z", sha := "def456" }

/-- Witness for C8 at the spec's end-to-end scenario 2: a 404 profile
lookup degrades to the empty string and the commit falls back to its
embedded author name. -/
theorem profile_404_fallback_witness :
    fetch_display_name netFail [] "alice" = ("", [("alice", "")], ["alice"]) ∧
    (fetch_commits netFail "r" [aliceCommit] []).1 =
      [[("sha", aliceCommit.sha), ("timestamp", aliceCommit.commitAuthorDate),
        ("username", "alice"), ("name", aliceCommit.commitAuthorName),
        ("action_type", "commit"), ("repository", "r")]] ∧
    (∀ (cache2 : Cache) (v : String),
      cacheLookup cache2 "alice" = some v → v ≠ "" →
      (fetch_commits netFail "r" [aliceCommit] cache2).1 =
        [[("sha", aliceCommit.sha), ("timestamp", aliceCommit.commitAuthorDate),
          ("username", "alice"), ("name", v),
          ("action_type", "commit"), ("repository", "r")]]) :=
  profile_404_fallback netFail [] "alice" aliceCommit "r" (by decide) rfl rfl

/-! Pull-request exclusion in the issue extractor (C9). -/

/-- C9: the issue extractor emits an issue-opened event for an item exactly
when the item lacks the "pull_request" key: it behaves identically on the
sublist of non-pull-request items, and emits exactly one event per such
item (so no event originates from an item carrying the marker). -/
theorem fetch_issues_excludes_prs (net : String → ProfileResp)
    (repo : String) (items : List Item) : ∀ cache : Cache,
    fetch_issues net repo items cache =
      fetch_issues net repo (items.filter (fun i => !i.pull_request)) cache ∧
    (fetch_issues net repo items cache).1.length =
      (items.filter (fun i => !i.pull_request)).length := by
  induction items with
  | nil =>
    intro cache
    simp [fetch_issues]
  | cons item rest ih =>
    intro cache
    by_cases hpr : item.pull_request = true
    · simp only [fetch_issues, hpr, if_true, List.filter_cons, Bool.not_true,
        Bool.false_eq_true, if_false]
      exact ih cache
    · have hpr2 : item.pull_request = false := by
        cases h : item.pull_request
        · rfl
        · exact absurd h hpr
      simp only [fetch_issues, hpr2, Bool.false_eq_true, if_false,
        List.filter_cons, Bool.not_false, if_true]
      constructor
      · rw [(ih _).1]
      · simp [(ih _).2]

/-- A raw item carrying the pull-request linkage marker. -/
def prItem : Item :=
  { user := some "bob", created_at := "2021-01-01T00:00:00Z",
    pull_request := true }

/-- Witness for C9 at a concrete item list containing one pull request and
one plain issue: only the plain issue yields an event. -/
theorem fetch_issues_excludes_prs_witness :
    fetch_issues netOk "r" [prItem, nullUserItem] [] =
      fetch_issues netOk "r"
        ([prItem, nullUserItem].filter (fun i => !i.pull_request)) [] ∧
    (fetch_issues netOk "r" [prItem, nullUserItem] []).1.length =
      ([prItem, nullUserItem].filter (fun i => !i.pull_request)).length :=
  fetch_issues_excludes_prs netOk "r" [prItem, nullUserItem] []

end Scrape
